import Mathlib

/-!
Shallow embedding of the look-ahead playback scheduler implemented in
`src/frontend/src/hooks/useAudioPlayback.ts`.

Times and song positions are rationals, in seconds.  The browser engine
clock (`AudioContext.currentTime`) is passed explicitly as `now` to every
operation that reads it.  React state setters and the mutable refs of the
hook become fields of `PlayerState`.  A `ToneVoice` models the bundle of
synthesis resources (primary oscillator + gain node, plus the cosmetic
bright overtone oscillator + gain node) that `scheduleNoteRef` allocates
for one sounding instance of a note; `noteIndex` records which timeline
slot the voice was created for.  Timer callbacks (`setTimeout` for the
scheduler, `requestAnimationFrame` for the position-reporting loop) are
modelled by pending flags plus explicit tick functions.
-/

inductive PlaybackState where
  | idle
  | playing
  | paused
deriving DecidableEq

structure NoteData where
  pitch : String
  octave : ℤ
  duration : String
  start_time : ℚ
deriving DecidableEq

/-- The ordering the hook sorts the timeline by:
`[...notes].sort((a, b) => a.start_time - b.start_time)`. -/
def noteLE (a b : NoteData) : Prop := a.start_time ≤ b.start_time

instance (a b : NoteData) : Decidable (noteLE a b) :=
  inferInstanceAs (Decidable (a.start_time ≤ b.start_time))

/-- `NOTE_SEMITONES` lookup table from the source; absent keys give `none`
(the source uses `?? 0` at the lookup site). -/
def NOTE_SEMITONES (p : String) : Option ℤ :=
  match p with
  | "C" => some 0 | "C#" => some 1 | "Db" => some 1 | "D" => some 2
  | "D#" => some 3 | "Eb" => some 3 | "E" => some 4 | "F" => some 5
  | "F#" => some 6 | "Gb" => some 6 | "G" => some 7 | "G#" => some 8
  | "Ab" => some 8 | "A" => some 9 | "A#" => some 10 | "Bb" => some 10
  | "B" => some 11
  | _ => none

/-- `DURATION_BEATS` lookup table from the source. -/
def DURATION_BEATS (d : String) : Option ℚ :=
  match d with
  | "w" => some 4 | "hd" => some 3 | "h" => some 2 | "qd" => some (3/2)
  | "q" => some 1 | "8d" => some (3/4) | "8" => some (1/2) | "16" => some (1/4)
  | _ => none

/-- JS `duration.replace('r', '')` with a string pattern replaces only the
first occurrence: remove the first `'r'`, if any. -/
def removeFirstR : List Char → List Char
  | [] => []
  | c :: cs => if c = 'r' then cs else c :: removeFirstR cs

def stripRest (s : String) : String := ⟨removeFirstR s.data⟩

/-- `durationToSecs` from the source:
`(DURATION_BEATS[duration.replace('r', '')] ?? 1) * (60 / tempo)`. -/
def durationToSecs (duration : String) (tempo : ℚ) : ℚ :=
  ((DURATION_BEATS (stripRest duration)).getD 1) * (60 / tempo)

/-- `noteToFreq` from the source:
`semitone = NOTE_SEMITONES[pitch] ?? 0; midi = (octave + 1) * 12 + semitone;`
`440 * Math.pow(2, (midi - 69) / 12)`. -/
noncomputable def noteToFreq (pitch : String) (octave : ℤ) : ℝ :=
  440 * (2 : ℝ) ^ (((((octave + 1) * 12 + (NOTE_SEMITONES pitch).getD 0 : ℤ) : ℝ) - 69) / 12)

/-- Reference formula from the spec: equal-tempered frequency of a MIDI
note number, referenced to A4 = 440 Hz at MIDI 69. -/
noncomputable def freqOfMidi (m : ℤ) : ℝ :=
  440 * (2 : ℝ) ^ (((m : ℝ) - 69) / 12)

/-- JS `note.duration.endsWith('r')`. -/
def isRest (d : String) : Bool := decide (d.data.getLast? = some 'r')

def LOOKAHEAD_SECS : ℚ := 2

/-- `SCHEDULE_INTERVAL_MS = 200`, i.e. 1/5 of a second between ticks. -/
def SCHEDULE_INTERVAL_SECS : ℚ := 1/5

/-- One sounding instance of a note: the resource bundle created by one
non-rest pass through `scheduleNoteRef` (oscillator + gain and the bright
overtone pair).  `schedStart = max(startAt, now)`, `stopAt = startAt + dur`
and the bright overtone stops at
`schedStart + attackTime + brightDecay + 0.01` with `attackTime = 0.003`,
`brightDecay = 0.4 * min(0.3, 0.4 * dur)`. -/
structure ToneVoice where
  noteIndex : ℕ
  note : NoteData
  schedStart : ℚ
  stopAt : ℚ
  brightStopAt : ℚ
deriving DecidableEq

def mkVoice (tempo : ℚ) (idx : ℕ) (note : NoteData) (startAt now : ℚ) : ToneVoice :=
  { noteIndex := idx
    note := note
    schedStart := max startAt now
    stopAt := startAt + durationToSecs note.duration tempo
    brightStopAt := max startAt now + 3/1000
      + (min (3/10) (durationToSecs note.duration tempo * (2/5))) * (2/5) + 1/100 }

/-- `scheduleNoteRef.current`: skip rests, silently drop a voice whose
start lies more than 20 ms in the past, otherwise append the resource
bundle for this note to `oscsRef`. -/
def scheduleNote (tempo now contextStart : ℚ) (idx : ℕ) (note : NoteData)
    (oscs : List ToneVoice) : List ToneVoice :=
  if isRest note.duration then oscs
  else if contextStart + note.start_time < now - 1/50 then oscs
  else oscs ++ [mkVoice tempo idx note (contextStart + note.start_time) now]

/-- The voices appended by running `scheduleNote` over a block of
consecutive timeline entries starting at index `idx`. -/
def scheduleSlice (tempo now contextStart : ℚ) : ℕ → List NoteData → List ToneVoice
  | _, [] => []
  | idx, n :: rest =>
      scheduleNote tempo now contextStart idx n []
        ++ scheduleSlice tempo now contextStart (idx + 1) rest

/-- The while loop of `runSchedulerRef.current`, acting on the part of the
sorted timeline from the cursor on:
`while (next < sorted.length && sorted[next].start_time <= scheduleUpTo)`. -/
def scheduleLoopAux (tempo now contextStart upTo : ℚ) :
    ℕ → List NoteData → List ToneVoice → ℕ × List ToneVoice
  | idx, [], oscs => (idx, oscs)
  | idx, n :: rest, oscs =>
      if n.start_time ≤ upTo then
        scheduleLoopAux tempo now contextStart upTo (idx + 1) rest
          (scheduleNote tempo now contextStart idx n oscs)
      else (idx, oscs)

structure PlayerState where
  playbackState : PlaybackState
  currentTime : ℚ
  contextStart : ℚ
  seekOffset : ℚ
  nextNoteIndex : ℕ
  oscs : List ToneVoice
  schedulerPending : Bool
  rafPending : Bool
  ctxExists : Bool
deriving DecidableEq

def initState : PlayerState :=
  { playbackState := .idle, currentTime := 0, contextStart := 0, seekOffset := 0,
    nextNoteIndex := 0, oscs := [], schedulerPending := false, rafPending := false,
    ctxExists := false }

/-- `runSchedulerRef.current`: advance the cursor over every event due
within `LOOKAHEAD_SECS` of the current playback position, then re-arm the
tick timer iff the timeline is not exhausted. -/
def runScheduler (tempo : ℚ) (sorted : List NoteData) (now : ℚ) (s : PlayerState) :
    PlayerState :=
  let r := scheduleLoopAux tempo now s.contextStart (now - s.contextStart + LOOKAHEAD_SECS)
            s.nextNoteIndex (sorted.drop s.nextNoteIndex) s.oscs
  { s with nextNoteIndex := r.1, oscs := r.2,
           schedulerPending := decide (r.1 < sorted.length) }

/-- The resume-cursor loop in `play`:
`while (idx < sorted.length && sorted[idx].start_time < from - 0.02) idx++`. -/
def findResumeIdx (from_ : ℚ) : List NoteData → ℕ
  | [] => 0
  | n :: rest => if n.start_time < from_ - 1/50 then findResumeIdx from_ rest + 1 else 0

/-- `play`: cancel both timers, kill all oscillators, re-anchor the clock
at the stored seek offset, recompute the cursor, run the scheduler once,
enter the playing state and arm the reporting loop.  (The lazily created
`AudioContext` is modelled by `ctxExists := true`.) -/
def play (tempo : ℚ) (sorted : List NoteData) (now : ℚ) (s : PlayerState) : PlayerState :=
  { runScheduler tempo sorted now
      { s with ctxExists := true, rafPending := false, schedulerPending := false, oscs := [],
               contextStart := now - s.seekOffset,
               nextNoteIndex := findResumeIdx s.seekOffset sorted }
    with playbackState := .playing, rafPending := true }

/-- `pause`: a no-op when no `AudioContext` exists yet; otherwise capture
the derived position into the seek offset, cancel both timers, kill all
oscillators and report the captured position. -/
def pause (now : ℚ) (s : PlayerState) : PlayerState :=
  if s.ctxExists then
    { s with seekOffset := now - s.contextStart, rafPending := false,
             schedulerPending := false, oscs := [], playbackState := .paused,
             currentTime := now - s.contextStart }
  else s

/-- `stop`: cancel both timers, kill all oscillators, reset the seek
offset and reported position to 0, go idle. -/
def stop (s : PlayerState) : PlayerState :=
  { s with rafPending := false, schedulerPending := false, oscs := [],
           seekOffset := 0, playbackState := .idle, currentTime := 0 }

/-- The `tick` callback of the reporting loop inside `play`.  The source
first calls `setCurrentTime(Math.min(elapsed, total))` and, when
`elapsed >= total`, overwrites it with `setCurrentTime(0)` inside the same
callback, so the surviving reported position on completion is 0. -/
def rafTick (totalDuration now : ℚ) (s : PlayerState) : PlayerState :=
  if s.ctxExists then
    if totalDuration ≤ now - s.contextStart then
      { s with schedulerPending := false, oscs := [], rafPending := false,
               seekOffset := 0, playbackState := .idle, currentTime := 0 }
    else { s with currentTime := min (now - s.contextStart) totalDuration, rafPending := true }
  else { s with rafPending := false }

/-- A scheduler timer firing: it only does anything when a tick is
actually pending. -/
def schedTick (tempo : ℚ) (sorted : List NoteData) (now : ℚ) (s : PlayerState) : PlayerState :=
  if s.schedulerPending then runScheduler tempo sorted now s else s

/-- Uninterrupted run: `play` at engine time `t1`, then `k` scheduler
ticks firing exactly on schedule, `SCHEDULE_INTERVAL_SECS` apart. -/
def idealRun (tempo : ℚ) (sorted : List NoteData) (t1 : ℚ) (s0 : PlayerState) :
    ℕ → PlayerState
  | 0 => play tempo sorted t1 s0
  | k + 1 => schedTick tempo sorted (t1 + ((k : ℚ) + 1) * SCHEDULE_INTERVAL_SECS)
      (idealRun tempo sorted t1 s0 k)

/-- The voices an uninterrupted run should produce for a block of timeline
entries: one bundle per non-rest entry, scheduled at `c + start_time`
relative to clock anchor `c`, clamped to the play instant `t1`. -/
def idealVoices (tempo c t1 : ℚ) : ℕ → List NoteData → List ToneVoice
  | _, [] => []
  | idx, n :: rest =>
      (if isRest n.duration then [] else [mkVoice tempo idx n (c + n.start_time) t1])
        ++ idealVoices tempo c t1 (idx + 1) rest

/-- Song position covered by the look-ahead window after tick `k` of a run
resumed at song position `p`. -/
def schedWindow (p : ℚ) (k : ℕ) : ℚ := (k : ℚ) * SCHEDULE_INTERVAL_SECS + p + LOOKAHEAD_SECS

/-- The block of timeline entries the cursor has passed after tick `k` of
a run resumed at song position `p`. -/
def takenAt (sorted : List NoteData) (p : ℚ) (k : ℕ) : List NoteData :=
  (sorted.drop (findResumeIdx p sorted)).takeWhile fun n => decide (n.start_time ≤ schedWindow p k)

/-- The worked example of the spec: C4 quarter at 0.0, a quarter rest at
0.5, D4 quarter at 1.0, tempo 120. -/
def exNotes : List NoteData :=
  [⟨"C", 4, "q", 0⟩, ⟨"C", 4, "qr", 1/2⟩, ⟨"D", 4, "q", 1⟩]

def ex2Notes : List NoteData := [⟨"C", 4, "q", 0⟩, ⟨"D", 4, "q", 1⟩]

/-- Three whole notes at tempo 15 BPM (16 s each), 3 s apart: all three
sound simultaneously at song position 6 even though no 2-second window of
the timeline holds more than one event. -/
def cexNotes : List NoteData := [⟨"C", 4, "w", 0⟩, ⟨"C", 4, "w", 3⟩, ⟨"C", 4, "w", 6⟩]

/-- A reachable paused state: `play` from scratch at engine time 0 with an
empty timeline, then `pause` at engine time 1 (song position 1). -/
def pausedAtOne : PlayerState := pause 1 (play 120 [] 0 initState)

/-- A reachable paused state at song position 3/4 over `ex2Notes`
(the spec example: pausing at 0.75 s between the two notes). -/
def resumeState : PlayerState := pause (3/4) (play 120 ex2Notes 0 initState)

/-- A reachable playing state over `ex2Notes`. -/
def playingState : PlayerState := play 120 ex2Notes 0 initState

-- Evaluation helpers for concrete inputs (rfl on String lookups; the
-- rational arithmetic itself is left to norm_num at the use sites).

theorem durationToSecs_lookup (d : String) (b : ℚ)
    (h : DURATION_BEATS (stripRest d) = some b) (tempo : ℚ) :
    durationToSecs d tempo = b * (60 / tempo) := by
  rw [durationToSecs, h, Option.getD_some]

theorem durationToSecs_default (d : String)
    (h : DURATION_BEATS (stripRest d) = none) (tempo : ℚ) :
    durationToSecs d tempo = 60 / tempo := by
  rw [durationToSecs, h, Option.getD_none, one_mul]

theorem isRest_q : isRest "q" = false := rfl

theorem isRest_qr : isRest "qr" = true := rfl

theorem isRest_w : isRest "w" = false := rfl

theorem mkVoice_noteIndex (tempo : ℚ) (idx : ℕ) (n : NoteData) (startAt now : ℚ) :
    (mkVoice tempo idx n startAt now).noteIndex = idx := rfl

theorem mkVoice_note (tempo : ℚ) (idx : ℕ) (n : NoteData) (startAt now : ℚ) :
    (mkVoice tempo idx n startAt now).note = n := rfl

theorem mkVoice_schedStart (tempo : ℚ) (idx : ℕ) (n : NoteData) (startAt now : ℚ) :
    (mkVoice tempo idx n startAt now).schedStart = max startAt now := rfl

theorem mkVoice_stopAt (tempo : ℚ) (idx : ℕ) (n : NoteData) (startAt now : ℚ) :
    (mkVoice tempo idx n startAt now).stopAt = startAt + durationToSecs n.duration tempo := rfl

-- Generic list facts used by the scheduler proofs.

theorem takeWhile_all {α : Type} (q : α → Bool) :
    ∀ l : List α, (∀ x ∈ l, q x = true) → l.takeWhile q = l
  | [], _ => rfl
  | a :: l, h => by
    rw [List.takeWhile_cons_of_pos (h a (List.mem_cons_self a l)),
      takeWhile_all q l fun x hx => h x (List.mem_cons_of_mem a hx)]

theorem takeWhile_of_length_eq {α : Type} (q : α → Bool) :
    ∀ l : List α, (l.takeWhile q).length = l.length → l.takeWhile q = l
  | [], _ => rfl
  | a :: l, h => by
    by_cases hq : q a = true
    · rw [List.takeWhile_cons_of_pos hq] at h ⊢
      simp only [List.length_cons, Nat.add_right_cancel_iff] at h
      rw [takeWhile_of_length_eq q l h]
    · rw [List.takeWhile_cons_of_neg hq] at h
      simp at h

theorem takeWhile_extend {α : Type} (q q2 : α → Bool)
    (himp : ∀ x, q x = true → q2 x = true) :
    ∀ l : List α, l.takeWhile q2 = l.takeWhile q ++ (l.dropWhile q).takeWhile q2
  | [] => rfl
  | a :: l => by
    by_cases hq : q a = true
    · rw [List.takeWhile_cons_of_pos hq, List.dropWhile_cons_of_pos hq,
        List.takeWhile_cons_of_pos (himp a hq), List.cons_append,
        takeWhile_extend q q2 himp l]
    · rw [List.takeWhile_cons_of_neg hq, List.dropWhile_cons_of_neg hq, List.nil_append]

/-- In a sorted timeline, every entry surviving `dropWhile q` dominates
some entry on which `q` failed. -/
theorem sorted_dropWhile_lb (q : NoteData → Bool) :
    ∀ l : List NoteData, List.Sorted noteLE l →
      ∀ x ∈ l.dropWhile q, ∃ h0 : NoteData, q h0 = false ∧ h0.start_time ≤ x.start_time
  | [], _, x, hx => by simp [List.dropWhile] at hx
  | a :: l, hs, x, hx => by
    obtain ⟨ha, hl⟩ := List.sorted_cons.mp hs
    by_cases hq : q a = true
    · rw [List.dropWhile_cons_of_pos hq] at hx
      exact sorted_dropWhile_lb q l hl x hx
    · rw [List.dropWhile_cons_of_neg hq] at hx
      rcases List.mem_cons.mp hx with h | h
      · exact ⟨a, Bool.not_eq_true _ ▸ hq, le_of_eq (by rw [h])⟩
      · exact ⟨a, Bool.not_eq_true _ ▸ hq, ha x h⟩

/-- In a sorted timeline, for a predicate closed downward along the order,
the cursor position `(l.takeWhile q).length` separates exactly the entries
satisfying the predicate. -/
theorem sorted_takeWhile_length_iff (q : NoteData → Bool)
    (hdc : ∀ a b : NoteData, noteLE a b → q b = true → q a = true) :
    ∀ l : List NoteData, List.Sorted noteLE l → ∀ i (hi : i < l.length),
      (i < (l.takeWhile q).length ↔ q (l.get ⟨i, hi⟩) = true)
  | [], _, i, hi => by simp at hi
  | a :: l, hs, i, hi => by
    obtain ⟨ha, hl⟩ := List.sorted_cons.mp hs
    by_cases hq : q a = true
    · rw [List.takeWhile_cons_of_pos hq]
      match i with
      | 0 => simpa using hq
      | j + 1 =>
        have hj : j < l.length := Nat.lt_of_succ_lt_succ hi
        simpa [Nat.succ_lt_succ_iff] using
          sorted_takeWhile_length_iff q hdc l hl j hj
    · rw [List.takeWhile_cons_of_neg hq]
      match i with
      | 0 => simpa using hq
      | j + 1 =>
        have hj : j < l.length := Nat.lt_of_succ_lt_succ hi
        simp only [List.length_nil, Nat.not_lt_zero, false_iff]
        intro hcon
        exact hq (hdc a (l.get ⟨j, hj⟩) (ha _ (List.get_mem l j hj)) hcon)

-- Structural characterization of the scheduler while-loop.

theorem scheduleNote_append (tempo now c : ℚ) (idx : ℕ) (n : NoteData)
    (oscs : List ToneVoice) :
    scheduleNote tempo now c idx n oscs = oscs ++ scheduleNote tempo now c idx n [] := by
  unfold scheduleNote
  split_ifs <;> simp

theorem scheduleLoopAux_spec (tempo now c u : ℚ) :
    ∀ (l : List NoteData) (idx : ℕ) (oscs : List ToneVoice),
      scheduleLoopAux tempo now c u idx l oscs
        = (idx + (l.takeWhile fun n => decide (n.start_time ≤ u)).length,
           oscs ++ scheduleSlice tempo now c idx
             (l.takeWhile fun n => decide (n.start_time ≤ u)))
  | [], idx, oscs => by simp [scheduleLoopAux, scheduleSlice]
  | n :: l, idx, oscs => by
    by_cases h : n.start_time ≤ u
    · rw [scheduleLoopAux, if_pos h,
        scheduleLoopAux_spec tempo now c u l (idx + 1) _,
        List.takeWhile_cons_of_pos (by simpa using h)]
      simp only [scheduleSlice, List.length_cons, Prod.mk.injEq]
      refine ⟨by omega, ?_⟩
      rw [scheduleNote_append, List.append_assoc]
    · rw [scheduleLoopAux, if_neg h, List.takeWhile_cons_of_neg (by simpa using h)]
      simp [scheduleSlice]

theorem mkVoice_now_irrel (tempo : ℚ) (idx : ℕ) (n : NoteData) (startAt now t1 : ℚ)
    (h : max startAt now = max startAt t1) :
    mkVoice tempo idx n startAt now = mkVoice tempo idx n startAt t1 := by
  unfold mkVoice
  rw [h]

/-- When no entry of the block is stale (older than 20 ms before `now`)
and clamping to `now` agrees with clamping to the play instant `t1`, the
voices the loop creates are the ideal ones. -/
theorem scheduleSlice_eq_idealVoices (tempo c t1 now : ℚ) :
    ∀ (l : List NoteData) (idx : ℕ),
      (∀ n ∈ l, ¬ (c + n.start_time < now - 1/50) ∧
        max (c + n.start_time) now = max (c + n.start_time) t1) →
      scheduleSlice tempo now c idx l = idealVoices tempo c t1 idx l
  | [], _, _ => rfl
  | n :: l, idx, h => by
    obtain ⟨h1, h2⟩ := h n (List.mem_cons_self n l)
    have hrest := scheduleSlice_eq_idealVoices tempo c t1 now l (idx + 1)
      fun x hx => h x (List.mem_cons_of_mem n hx)
    simp only [scheduleSlice, idealVoices, scheduleNote, hrest]
    by_cases hr : isRest n.duration = true
    · rw [if_pos hr, if_pos hr]
    · rw [if_neg hr, if_neg hr, if_neg h1, List.nil_append,
        mkVoice_now_irrel tempo idx n _ now t1 h2]

theorem idealVoices_append (tempo c t1 : ℚ) :
    ∀ (l1 l2 : List NoteData) (idx : ℕ),
      idealVoices tempo c t1 idx (l1 ++ l2)
        = idealVoices tempo c t1 idx l1 ++ idealVoices tempo c t1 (idx + l1.length) l2
  | [], l2, idx => by simp [idealVoices]
  | n :: l1, l2, idx => by
    simp only [List.cons_append, idealVoices, List.length_cons, List.append_eq]
    rw [idealVoices_append tempo c t1 l1 l2 (idx + 1), List.append_assoc]
    have h : idx + 1 + l1.length = idx + (l1.length + 1) := by omega
    rw [h]

/-- `idealVoices` is exactly one voice per non-rest entry, in timeline
order, tagged with its timeline index. -/
theorem idealVoices_eq_filter_map (tempo c t1 : ℚ) :
    ∀ (l : List NoteData) (idx : ℕ),
      idealVoices tempo c t1 idx l
        = ((l.enumFrom idx).filter fun pr => !isRest pr.2.duration).map
            fun pr => mkVoice tempo pr.1 pr.2 (c + pr.2.start_time) t1
  | [], _ => rfl
  | n :: l, idx => by
    simp only [idealVoices, List.enumFrom_cons, List.filter_cons,
      idealVoices_eq_filter_map tempo c t1 l (idx + 1)]
    by_cases hr : isRest n.duration = true
    · simp [hr]
    · simp only [Bool.not_eq_true] at hr
      simp [hr]

-- `findResumeIdx` is the length of the stale segment of the timeline.

theorem findResumeIdx_eq_takeWhile (p : ℚ) :
    ∀ l : List NoteData,
      findResumeIdx p l = (l.takeWhile fun n => decide (n.start_time < p - 1/50)).length
  | [] => rfl
  | n :: l => by
    by_cases h : n.start_time < p - 1/50
    · rw [findResumeIdx, if_pos h, List.takeWhile_cons_of_pos (by simpa using h),
        List.length_cons, findResumeIdx_eq_takeWhile p l]
    · rw [findResumeIdx, if_neg h, List.takeWhile_cons_of_neg (by simpa using h)]
      rfl

theorem findResumeIdx_le_length (p : ℚ) (l : List NoteData) :
    findResumeIdx p l ≤ l.length := by
  rw [findResumeIdx_eq_takeWhile]
  exact (List.takeWhile_sublist _).length_le

theorem drop_findResumeIdx (p : ℚ) :
    ∀ l : List NoteData,
      l.drop (findResumeIdx p l) = l.dropWhile fun n => decide (n.start_time < p - 1/50)
  | [] => rfl
  | n :: l => by
    by_cases h : n.start_time < p - 1/50
    · rw [findResumeIdx, if_pos h, List.dropWhile_cons_of_pos (by simpa using h)]
      exact drop_findResumeIdx p l
    · rw [findResumeIdx, if_neg h, List.dropWhile_cons_of_neg (by simpa using h)]
      rfl

-- Record-level characterizations of one scheduler pass and of `play`.

theorem runScheduler_spec (tempo : ℚ) (sorted : List NoteData) (now : ℚ) (s : PlayerState) :
    runScheduler tempo sorted now s
      = { s with
          nextNoteIndex := s.nextNoteIndex + ((sorted.drop s.nextNoteIndex).takeWhile
            fun n => decide (n.start_time ≤ now - s.contextStart + LOOKAHEAD_SECS)).length,
          oscs := s.oscs ++ scheduleSlice tempo now s.contextStart s.nextNoteIndex
            ((sorted.drop s.nextNoteIndex).takeWhile
              fun n => decide (n.start_time ≤ now - s.contextStart + LOOKAHEAD_SECS)),
          schedulerPending := decide (s.nextNoteIndex
            + ((sorted.drop s.nextNoteIndex).takeWhile
                fun n => decide (n.start_time ≤ now - s.contextStart + LOOKAHEAD_SECS)).length
            < sorted.length) } := by
  unfold runScheduler
  rw [scheduleLoopAux_spec]

theorem play_spec (tempo : ℚ) (sorted : List NoteData) (now : ℚ) (s : PlayerState) :
    play tempo sorted now s
      = { s with
          ctxExists := true,
          playbackState := .playing,
          rafPending := true,
          contextStart := now - s.seekOffset,
          nextNoteIndex := findResumeIdx s.seekOffset sorted
            + ((sorted.drop (findResumeIdx s.seekOffset sorted)).takeWhile
                fun n => decide (n.start_time ≤ s.seekOffset + LOOKAHEAD_SECS)).length,
          oscs := scheduleSlice tempo now (now - s.seekOffset)
            (findResumeIdx s.seekOffset sorted)
            ((sorted.drop (findResumeIdx s.seekOffset sorted)).takeWhile
              fun n => decide (n.start_time ≤ s.seekOffset + LOOKAHEAD_SECS)),
          schedulerPending := decide (findResumeIdx s.seekOffset sorted
            + ((sorted.drop (findResumeIdx s.seekOffset sorted)).takeWhile
                fun n => decide (n.start_time ≤ s.seekOffset + LOOKAHEAD_SECS)).length
            < sorted.length) } := by
  have harith : now - (now - s.seekOffset) + LOOKAHEAD_SECS = s.seekOffset + LOOKAHEAD_SECS := by
    ring
  unfold play
  rw [runScheduler_spec]
  simp only [harith, List.nil_append]

-- Facts about the resumed tail of the timeline.

theorem sorted_drop (sorted : List NoteData) (Hs : List.Sorted noteLE sorted) (n : ℕ) :
    List.Sorted noteLE (sorted.drop n) :=
  List.Pairwise.sublist (List.drop_sublist n sorted) Hs

/-- No entry at or past the resume cursor is stale: all have
`start_time ≥ seek offset − 20 ms`. -/
theorem tail_not_stale (p : ℚ) (sorted : List NoteData) (Hs : List.Sorted noteLE sorted) :
    ∀ x ∈ sorted.drop (findResumeIdx p sorted), p - 1/50 ≤ x.start_time := by
  intro x hx
  rw [drop_findResumeIdx] at hx
  obtain ⟨h0, hq, hle⟩ := sorted_dropWhile_lb _ sorted Hs x hx
  have h1 : ¬ (h0.start_time < p - 1/50) := by simpa using hq
  linarith

/-- Every entry past the block scheduled by tick `k` starts strictly after
that tick's look-ahead horizon. -/
theorem dropWhile_window_lb (p : ℚ) (k : ℕ) (tail : List NoteData)
    (Hs : List.Sorted noteLE tail) :
    ∀ x ∈ tail.dropWhile fun n => decide (n.start_time ≤ schedWindow p k),
      schedWindow p k < x.start_time := by
  intro x hx
  obtain ⟨h0, hq, hle⟩ := sorted_dropWhile_lb _ tail Hs x hx
  have h1 : ¬ (h0.start_time ≤ schedWindow p k) := by simpa using hq
  linarith

theorem schedWindow_succ (p : ℚ) (k : ℕ) :
    schedWindow p (k + 1) = schedWindow p k + SCHEDULE_INTERVAL_SECS := by
  simp only [schedWindow]
  push_cast
  ring

/-- Master invariant of an uninterrupted run resumed at song position
`s0.seekOffset`: after tick `k` the clock anchor is unchanged, the cursor
sits right past the block of entries due within the tick-`k` horizon,
the voice list is the ideal one for that block, and the tick timer is
armed iff the timeline is not exhausted. -/
theorem idealRun_invariant (tempo : ℚ) (sorted : List NoteData) (t1 : ℚ) (s0 : PlayerState)
    (Hs : List.Sorted noteLE sorted) :
    ∀ k : ℕ,
      (idealRun tempo sorted t1 s0 k).contextStart = t1 - s0.seekOffset ∧
      (idealRun tempo sorted t1 s0 k).nextNoteIndex
        = findResumeIdx s0.seekOffset sorted + (takenAt sorted s0.seekOffset k).length ∧
      (idealRun tempo sorted t1 s0 k).oscs
        = idealVoices tempo (t1 - s0.seekOffset) t1 (findResumeIdx s0.seekOffset sorted)
            (takenAt sorted s0.seekOffset k) ∧
      (idealRun tempo sorted t1 s0 k).schedulerPending
        = decide (findResumeIdx s0.seekOffset sorted
            + (takenAt sorted s0.seekOffset k).length < sorted.length) := by
  intro k
  induction k with
  | zero =>
    have hwin : s0.seekOffset + LOOKAHEAD_SECS = schedWindow s0.seekOffset 0 := by
      simp [schedWindow]
    have hslice : scheduleSlice tempo t1 (t1 - s0.seekOffset)
        (findResumeIdx s0.seekOffset sorted) (takenAt sorted s0.seekOffset 0)
        = idealVoices tempo (t1 - s0.seekOffset) t1
            (findResumeIdx s0.seekOffset sorted) (takenAt sorted s0.seekOffset 0) := by
      refine scheduleSlice_eq_idealVoices tempo (t1 - s0.seekOffset) t1 t1 _ _ ?_
      intro n hn
      have hmem : n ∈ sorted.drop (findResumeIdx s0.seekOffset sorted) :=
        (List.takeWhile_sublist _).subset hn
      have hfresh := tail_not_stale s0.seekOffset sorted Hs n hmem
      constructor
      · intro hcon
        have : t1 - s0.seekOffset + n.start_time ≥ t1 - 1/50 := by linarith
        linarith
      · rfl
    refine ⟨?_, ?_, ?_, ?_⟩
    · simp only [idealRun, play_spec]
    · simp only [idealRun, play_spec, takenAt, hwin]
    · simp only [idealRun, play_spec, takenAt, hwin]
      simpa only [takenAt, hwin] using hslice
    · simp only [idealRun, play_spec, takenAt, hwin]
  | succ k ih =>
    obtain ⟨ihc, ihn, iho, ihp⟩ := ih
    by_cases hpend : findResumeIdx s0.seekOffset sorted
        + (takenAt sorted s0.seekOffset k).length < sorted.length
    · -- A tick is pending: the scheduler runs at `t1 + (k+1)/5`.
      have hpend' : (idealRun tempo sorted t1 s0 k).schedulerPending = true := by
        rw [ihp]; simpa using hpend
      have hstep : idealRun tempo sorted t1 s0 (k + 1)
          = runScheduler tempo sorted (t1 + ((k : ℚ) + 1) * SCHEDULE_INTERVAL_SECS)
              (idealRun tempo sorted t1 s0 k) := by
        simp only [idealRun, schedTick, hpend', if_true]
      -- The remaining part of the timeline past the tick-`k` block.
      have hdrop : sorted.drop (findResumeIdx s0.seekOffset sorted
            + (takenAt sorted s0.seekOffset k).length)
          = (sorted.drop (findResumeIdx s0.seekOffset sorted)).dropWhile
              fun n => decide (n.start_time ≤ schedWindow s0.seekOffset k) := by
        rw [← List.drop_drop]
        have hsplit : (sorted.drop (findResumeIdx s0.seekOffset sorted)).drop
              (takenAt sorted s0.seekOffset k).length
            = ((takenAt sorted s0.seekOffset k)
                ++ (sorted.drop (findResumeIdx s0.seekOffset sorted)).dropWhile
                    fun n => decide (n.start_time ≤ schedWindow s0.seekOffset k)).drop
                (takenAt sorted s0.seekOffset k).length := by
          rw [takenAt, List.takeWhile_append_dropWhile]
        rw [hsplit, List.drop_left]
      have hup : t1 + ((k : ℚ) + 1) * SCHEDULE_INTERVAL_SECS
            - (t1 - s0.seekOffset) + LOOKAHEAD_SECS = schedWindow s0.seekOffset (k + 1) := by
        simp only [schedWindow]
        push_cast
        ring
      have himp : ∀ n : NoteData,
          decide (n.start_time ≤ schedWindow s0.seekOffset k) = true →
          decide (n.start_time ≤ schedWindow s0.seekOffset (k + 1)) = true := by
        intro n hn
        have h1 : n.start_time ≤ schedWindow s0.seekOffset k := by simpa using hn
        have h2 : (0 : ℚ) ≤ SCHEDULE_INTERVAL_SECS := by norm_num [SCHEDULE_INTERVAL_SECS]
        simp only [decide_eq_true_eq]
        rw [schedWindow_succ]
        linarith
      have hTsplit : takenAt sorted s0.seekOffset (k + 1)
          = takenAt sorted s0.seekOffset k
            ++ ((sorted.drop (findResumeIdx s0.seekOffset sorted)).dropWhile
                fun n => decide (n.start_time ≤ schedWindow s0.seekOffset k)).takeWhile
                fun n => decide (n.start_time ≤ schedWindow s0.seekOffset (k + 1)) := by
        rw [takenAt, takenAt,
          takeWhile_extend (fun n : NoteData => decide (n.start_time ≤ schedWindow s0.seekOffset k))
            (fun n : NoteData => decide (n.start_time ≤ schedWindow s0.seekOffset (k + 1))) himp]
      -- Entries scheduled by tick `k+1` are strictly in the future.
      have hslice2 : scheduleSlice tempo (t1 + ((k : ℚ) + 1) * SCHEDULE_INTERVAL_SECS)
            (t1 - s0.seekOffset)
            (findResumeIdx s0.seekOffset sorted + (takenAt sorted s0.seekOffset k).length)
            (((sorted.drop (findResumeIdx s0.seekOffset sorted)).dropWhile
                fun n => decide (n.start_time ≤ schedWindow s0.seekOffset k)).takeWhile
                fun n => decide (n.start_time ≤ schedWindow s0.seekOffset (k + 1)))
          = idealVoices tempo (t1 - s0.seekOffset) t1
              (findResumeIdx s0.seekOffset sorted + (takenAt sorted s0.seekOffset k).length)
              (((sorted.drop (findResumeIdx s0.seekOffset sorted)).dropWhile
                  fun n => decide (n.start_time ≤ schedWindow s0.seekOffset k)).takeWhile
                  fun n => decide (n.start_time ≤ schedWindow s0.seekOffset (k + 1))) := by
        refine scheduleSlice_eq_idealVoices tempo (t1 - s0.seekOffset) t1 _ _ _ ?_
        intro n hn
        have hmem : n ∈ (sorted.drop (findResumeIdx s0.seekOffset sorted)).dropWhile
            fun n => decide (n.start_time ≤ schedWindow s0.seekOffset k) :=
          (List.takeWhile_sublist _).subset hn
        have hlb := dropWhile_window_lb s0.seekOffset k _
          (sorted_drop sorted Hs (findResumeIdx s0.seekOffset sorted)) n hmem
        have hwk : schedWindow s0.seekOffset k
            = (k : ℚ) * SCHEDULE_INTERVAL_SECS + s0.seekOffset + LOOKAHEAD_SECS := rfl
        have hla : LOOKAHEAD_SECS = 2 := rfl
        have hsi : SCHEDULE_INTERVAL_SECS = 1/5 := rfl
        have hk0 : (0 : ℚ) ≤ (k : ℚ) := Nat.cast_nonneg k
        rw [hwk, hla, hsi] at hlb
        constructor
        · intro hcon
          rw [hsi] at hcon
          linarith
        · have hnow : t1 ≤ t1 + ((k : ℚ) + 1) * SCHEDULE_INTERVAL_SECS := by
            rw [hsi]; nlinarith
          have hbig : t1 + ((k : ℚ) + 1) * SCHEDULE_INTERVAL_SECS
              ≤ t1 - s0.seekOffset + n.start_time := by
            rw [hsi]; linarith
          rw [max_eq_left (le_trans hnow hbig), max_eq_left hbig]
      refine ⟨?_, ?_, ?_, ?_⟩
      · rw [hstep, runScheduler_spec]
        exact ihc
      · rw [hstep, runScheduler_spec]
        dsimp only
        simp only [ihc, ihn, hdrop, hup, hTsplit, List.length_append]
        omega
      · rw [hstep, runScheduler_spec]
        dsimp only
        simp only [ihc, ihn, iho, hdrop, hup, hTsplit, hslice2]
        rw [idealVoices_append]
      · rw [hstep, runScheduler_spec]
        dsimp only
        simp only [ihc, ihn, hdrop, hup, hTsplit, List.length_append, decide_eq_decide]
        omega
    · -- No tick is pending: the state is unchanged and the block is the
      -- whole remaining timeline already.
      have hpend' : (idealRun tempo sorted t1 s0 k).schedulerPending = false := by
        rw [ihp]; simpa using hpend
      have hstep : idealRun tempo sorted t1 s0 (k + 1) = idealRun tempo sorted t1 s0 k := by
        simp only [idealRun, schedTick, hpend', Bool.false_eq_true, if_false]
      have hr := findResumeIdx_le_length s0.seekOffset sorted
      have hlen : (takenAt sorted s0.seekOffset k).length
          ≤ (sorted.drop (findResumeIdx s0.seekOffset sorted)).length :=
        (List.takeWhile_sublist _).length_le
      have hdroplen : (sorted.drop (findResumeIdx s0.seekOffset sorted)).length
          = sorted.length - findResumeIdx s0.seekOffset sorted := List.length_drop _ _
      have hfull : takenAt sorted s0.seekOffset k
          = sorted.drop (findResumeIdx s0.seekOffset sorted) := by
        simp only [takenAt] at hpend hlen ⊢
        refine takeWhile_of_length_eq _ _ ?_
        omega
      have hfull1 : takenAt sorted s0.seekOffset (k + 1)
          = sorted.drop (findResumeIdx s0.seekOffset sorted) := by
        simp only [takenAt]
        refine takeWhile_all _ _ ?_
        intro x hx
        have hx' : x ∈ takenAt sorted s0.seekOffset k := by rw [hfull]; exact hx
        simp only [takenAt] at hx'
        have hq := List.mem_takeWhile_imp hx'
        have h1 : x.start_time ≤ schedWindow s0.seekOffset k := by simpa using hq
        have h2 : (0 : ℚ) ≤ SCHEDULE_INTERVAL_SECS := by norm_num [SCHEDULE_INTERVAL_SECS]
        simp only [decide_eq_true_eq]
        rw [schedWindow_succ]
        linarith
      rw [hstep, hfull1, ← hfull]
      exact ⟨ihc, ihn, iho, ihp⟩

-- Specializations for a run started from scratch (seek offset 0).

theorem findResumeIdx_zero (sorted : List NoteData)
    (Hpos : ∀ n ∈ sorted, 0 ≤ n.start_time) :
    findResumeIdx 0 sorted = 0 := by
  cases sorted with
  | nil => rfl
  | cons a l =>
    rw [findResumeIdx, if_neg]
    have := Hpos a (List.mem_cons_self a l)
    intro hcon
    have h1 : (0 : ℚ) - 1/50 < 0 := by norm_num
    linarith

/-- Once the look-ahead horizon has passed the last event, the scheduled
block is the whole remaining timeline. -/
theorem takenAt_full (sorted : List NoteData) (p : ℚ) (k : ℕ)
    (Hk : ∀ n ∈ sorted, n.start_time ≤ schedWindow p k) :
    takenAt sorted p k = sorted.drop (findResumeIdx p sorted) := by
  simp only [takenAt]
  refine takeWhile_all _ _ ?_
  intro x hx
  have hx' : x ∈ sorted := (List.drop_sublist _ _).subset hx
  simpa using Hk x hx'

/-- Any note duration is at most four beats (the whole-note row of
`DURATION_BEATS`; the fallback is one beat). -/
theorem durationToSecs_le (d : String) (tempo : ℚ) (ht : 0 < tempo) :
    durationToSecs d tempo ≤ 4 * (60 / tempo) := by
  rw [durationToSecs]
  have h60 : 0 ≤ 60 / tempo := by positivity
  have hb : (DURATION_BEATS (stripRest d)).getD 1 ≤ 4 := by
    rcases h : DURATION_BEATS (stripRest d) with _ | b
    · simp
    · rw [Option.getD_some]
      unfold DURATION_BEATS at h
      split at h
      all_goals first
        | exact Option.noConfusion h
        | (injection h with h2; subst h2; norm_num)
  exact mul_le_mul_of_nonneg_right hb h60

theorem countP_enumFrom {α : Type} (g : α → Bool) :
    ∀ (l : List α) (i : ℕ), ((l.enumFrom i).countP fun pr => g pr.2) = l.countP g
  | [], _ => rfl
  | a :: l, i => by
    simp [List.enumFrom_cons, List.countP_cons, countP_enumFrom g l (i + 1)]

-- ====================================================================
-- Claim theorems
-- ====================================================================

/-- C1: in an uninterrupted run from position 0 (play at engine time `t1`,
then scheduler ticks on schedule until the look-ahead horizon has passed
every event), the scheduler creates exactly one ToneVoice per non-rest
event, in timeline order; each voice starts exactly at
`t1 + start_time` — i.e. with offset 0, well within the ±20 ms tolerance —
and its main oscillator stops exactly its resolved duration
`durationToSecs(duration, tempo)` later.  The cursor has passed every
index exactly once (it equals the timeline length and no further tick is
pending). -/
theorem scheduler_one_voice_per_nonrest_event
    (tempo : ℚ) (sorted : List NoteData) (t1 : ℚ) (k : ℕ)
    (Hs : List.Sorted noteLE sorted)
    (Hpos : ∀ n ∈ sorted, 0 ≤ n.start_time)
    (Hk : ∀ n ∈ sorted, n.start_time ≤ schedWindow 0 k) :
    (idealRun tempo sorted t1 initState k).oscs
      = ((sorted.enumFrom 0).filter fun pr => !isRest pr.2.duration).map
          (fun pr => mkVoice tempo pr.1 pr.2 (t1 + pr.2.start_time) t1) ∧
    (idealRun tempo sorted t1 initState k).nextNoteIndex = sorted.length ∧
    (idealRun tempo sorted t1 initState k).schedulerPending = false ∧
    ∀ v ∈ (idealRun tempo sorted t1 initState k).oscs,
      v.schedStart = t1 + v.note.start_time ∧
      v.stopAt = v.schedStart + durationToSecs v.note.duration tempo := by
  obtain ⟨ihc, ihn, iho, ihp⟩ := idealRun_invariant tempo sorted t1 initState Hs k
  have h0 : initState.seekOffset = 0 := rfl
  rw [h0] at ihn iho ihp
  have hr : findResumeIdx 0 sorted = 0 := findResumeIdx_zero sorted Hpos
  have hT : takenAt sorted 0 k = sorted := by
    rw [takenAt_full sorted 0 k Hk, hr, List.drop_zero]
  rw [hr, hT] at ihn iho ihp
  have hoscs : (idealRun tempo sorted t1 initState k).oscs
      = ((sorted.enumFrom 0).filter fun pr => !isRest pr.2.duration).map
          (fun pr => mkVoice tempo pr.1 pr.2 (t1 + pr.2.start_time) t1) := by
    rw [iho, idealVoices_eq_filter_map]
    simp only [sub_zero]
  refine ⟨hoscs, by omega, by simpa using ihp, ?_⟩
  intro v hv
  rw [hoscs] at hv
  obtain ⟨pr, hpr, hveq⟩ := List.mem_map.mp hv
  obtain ⟨hprmem, -⟩ := List.mem_filter.mp hpr
  have hsnd : pr.2 ∈ sorted := List.snd_mem_of_mem_enumFrom hprmem
  have hge := Hpos pr.2 hsnd
  have hmax : max (t1 + pr.2.start_time) t1 = t1 + pr.2.start_time := by
    rw [max_eq_left]
    linarith
  constructor
  · rw [← hveq, mkVoice_schedStart, mkVoice_note, hmax]
  · rw [← hveq, mkVoice_stopAt, mkVoice_note, mkVoice_schedStart, hmax]

/-- C1 witness: the spec's worked example (C4 quarter at 0, quarter rest
at 0.5, D4 quarter at 1, tempo 120), played at engine time 10; one tick
(the initial one at `play`) suffices since every event is within the
first look-ahead window. -/
theorem scheduler_one_voice_per_nonrest_event_witness :
    (idealRun 120 exNotes 10 initState 0).oscs
      = ((exNotes.enumFrom 0).filter fun pr => !isRest pr.2.duration).map
          (fun pr => mkVoice 120 pr.1 pr.2 (10 + pr.2.start_time) 10) :=
  (scheduler_one_voice_per_nonrest_event 120 exNotes 10 0
    (by simp [exNotes, List.sorted_cons, noteLE]; norm_num)
    (by intro n hn; simp [exNotes] at hn; rcases hn with h | h | h <;> subst h <;> norm_num)
    (by
      intro n hn
      simp [exNotes] at hn
      rcases hn with h | h | h <;> subst h <;> norm_num [schedWindow, LOOKAHEAD_SECS])).1

/-- C2 counterexample: the claim as stated is false.  With three whole
notes (16 s at tempo 15) at 0 s, 3 s and 6 s, at the scheduler tick at
song position 6 of an uninterrupted run, three voices are simultaneously
sounding (started, not yet ended) — but no single look-ahead window
(2 seconds, however placed) contains more than one event's start_time. -/
theorem lookahead_window_bound_fails :
    ((idealRun 15 cexNotes 0 initState 30).oscs.filter
        fun v => decide (v.schedStart ≤ 6 ∧ 6 < v.stopAt)).length = 3 ∧
    ∀ x : ℚ, (cexNotes.filter fun n =>
        decide (x ≤ n.start_time ∧ n.start_time ≤ x + 2)).length ≤ 1 := by
  constructor
  · norm_num [idealRun, schedTick, play, runScheduler, scheduleLoopAux, scheduleNote,
      initState, cexNotes, findResumeIdx, isRest_w, LOOKAHEAD_SECS,
      SCHEDULE_INTERVAL_SECS, mkVoice_schedStart, mkVoice_stopAt,
      durationToSecs_lookup "w" 4 rfl, max_def, List.filter]
  · intro x
    simp only [cexNotes, List.filter_cons, List.filter_nil, decide_eq_true_eq]
    split_ifs with h1 h2 h3 <;> simp_all <;> linarith

/-- C2 amended: at every scheduler tick of an uninterrupted run from
position 0, (a) the events scheduled so far are exactly those with
`start_time ≤ position + LOOKAHEAD_SECS`, and (b) the number of
outstanding voices (whose main oscillator has not yet reached its stop
time) is bounded by the number of events whose `start_time` lies in the
window `(position − maxNoteDuration, position + LOOKAHEAD_SECS]`, where
`maxNoteDuration = 4 · 60 / tempo` — one look-ahead window extended by
the longest possible note duration, not a bare look-ahead window. -/
theorem lookahead_bounded_outstanding_voices
    (tempo : ℚ) (sorted : List NoteData) (t1 : ℚ) (k : ℕ)
    (Hs : List.Sorted noteLE sorted)
    (Hpos : ∀ n ∈ sorted, 0 ≤ n.start_time)
    (Htempo : 0 < tempo) :
    (∀ i (hi : i < sorted.length),
      (i < (idealRun tempo sorted t1 initState k).nextNoteIndex ↔
        (sorted.get ⟨i, hi⟩).start_time
          ≤ (k : ℚ) * SCHEDULE_INTERVAL_SECS + LOOKAHEAD_SECS)) ∧
    ((idealRun tempo sorted t1 initState k).oscs.filter
        fun v => decide (t1 + (k : ℚ) * SCHEDULE_INTERVAL_SECS < v.stopAt)).length
      ≤ (sorted.filter fun n =>
          decide ((k : ℚ) * SCHEDULE_INTERVAL_SECS - 4 * (60 / tempo) < n.start_time ∧
            n.start_time ≤ (k : ℚ) * SCHEDULE_INTERVAL_SECS + LOOKAHEAD_SECS)).length := by
  obtain ⟨ihc, ihn, iho, ihp⟩ := idealRun_invariant tempo sorted t1 initState Hs k
  have h0 : initState.seekOffset = 0 := rfl
  rw [h0] at ihn iho ihp
  have hr : findResumeIdx 0 sorted = 0 := findResumeIdx_zero sorted Hpos
  rw [hr] at ihn iho ihp
  have hwin : schedWindow 0 k = (k : ℚ) * SCHEDULE_INTERVAL_SECS + LOOKAHEAD_SECS := by
    simp [schedWindow]
  constructor
  · intro i hi
    rw [ihn, Nat.zero_add]
    have hiff := sorted_takeWhile_length_iff
      (fun n => decide (n.start_time ≤ schedWindow 0 k))
      (by
        intro a b hab hb
        simp only [decide_eq_true_eq] at hb ⊢
        exact le_trans hab hb)
      sorted Hs i hi
    rw [takenAt, hr, List.drop_zero]
    rw [hiff, decide_eq_true_eq, hwin]
  · rw [iho, sub_zero, idealVoices_eq_filter_map, takenAt, hr, List.drop_zero]
    rw [← List.countP_eq_length_filter, ← List.countP_eq_length_filter,
      List.countP_map, List.countP_filter]
    have hmono : ∀ pr ∈ (sorted.takeWhile
          fun n => decide (n.start_time ≤ schedWindow 0 k)).enumFrom 0,
        ((fun v => decide (t1 + (k : ℚ) * SCHEDULE_INTERVAL_SECS < v.stopAt)) ∘
            fun pr => mkVoice tempo pr.1 pr.2 (t1 + pr.2.start_time) t1) pr
          && !isRest pr.2.duration → (fun pr : ℕ × NoteData =>
            decide ((k : ℚ) * SCHEDULE_INTERVAL_SECS - 4 * (60 / tempo) < pr.2.start_time ∧
              pr.2.start_time ≤ (k : ℚ) * SCHEDULE_INTERVAL_SECS + LOOKAHEAD_SECS)) pr
            = true := by
      intro pr hpr hcond
      simp only [Function.comp_apply, Bool.and_eq_true, decide_eq_true_eq,
        mkVoice_stopAt, mkVoice_note] at hcond
      obtain ⟨hstop, -⟩ := hcond
      have hT : pr.2 ∈ sorted.takeWhile
          fun n => decide (n.start_time ≤ schedWindow 0 k) :=
        List.snd_mem_of_mem_enumFrom hpr
      have hup := List.mem_takeWhile_imp hT
      have hup' : pr.2.start_time ≤ schedWindow 0 k := by simpa using hup
      have hdle := durationToSecs_le pr.2.duration tempo Htempo
      simp only [decide_eq_true_eq]
      rw [hwin] at hup'
      exact ⟨by linarith, hup'⟩
    calc ((sorted.takeWhile fun n => decide (n.start_time ≤ schedWindow 0 k)).enumFrom
            0).countP (fun pr =>
              ((fun v => decide (t1 + (k : ℚ) * SCHEDULE_INTERVAL_SECS < v.stopAt)) ∘
                fun pr => mkVoice tempo pr.1 pr.2 (t1 + pr.2.start_time) t1) pr
              && !isRest pr.2.duration)
        ≤ ((sorted.takeWhile fun n => decide (n.start_time ≤ schedWindow 0 k)).enumFrom
            0).countP (fun pr : ℕ × NoteData =>
              decide ((k : ℚ) * SCHEDULE_INTERVAL_SECS - 4 * (60 / tempo) < pr.2.start_time ∧
                pr.2.start_time ≤ (k : ℚ) * SCHEDULE_INTERVAL_SECS + LOOKAHEAD_SECS)) :=
          List.countP_mono_left hmono
      _ = (sorted.takeWhile fun n => decide (n.start_time ≤ schedWindow 0 k)).countP
            (fun n => decide ((k : ℚ) * SCHEDULE_INTERVAL_SECS - 4 * (60 / tempo)
                < n.start_time ∧
              n.start_time ≤ (k : ℚ) * SCHEDULE_INTERVAL_SECS + LOOKAHEAD_SECS)) :=
          countP_enumFrom
            (fun n : NoteData =>
              decide ((k : ℚ) * SCHEDULE_INTERVAL_SECS - 4 * (60 / tempo) < n.start_time ∧
                n.start_time ≤ (k : ℚ) * SCHEDULE_INTERVAL_SECS + LOOKAHEAD_SECS))
            (sorted.takeWhile fun n => decide (n.start_time ≤ schedWindow 0 k)) 0
      _ ≤ sorted.countP
            (fun n => decide ((k : ℚ) * SCHEDULE_INTERVAL_SECS - 4 * (60 / tempo)
                < n.start_time ∧
              n.start_time ≤ (k : ℚ) * SCHEDULE_INTERVAL_SECS + LOOKAHEAD_SECS)) :=
          (List.takeWhile_sublist _).countP_le _

/-- C2 witness (for the amended theorem): the worked example from the
spec at the initial tick. -/
theorem lookahead_bounded_outstanding_voices_witness :
    ((idealRun 120 exNotes 10 initState 0).oscs.filter
        fun v => decide (10 + (0 : ℕ) * SCHEDULE_INTERVAL_SECS < v.stopAt)).length
      ≤ (exNotes.filter fun n =>
          decide ((0 : ℕ) * SCHEDULE_INTERVAL_SECS - 4 * (60 / 120) < n.start_time ∧
            n.start_time ≤ (0 : ℕ) * SCHEDULE_INTERVAL_SECS + LOOKAHEAD_SECS)).length :=
  (lookahead_bounded_outstanding_voices 120 exNotes 10 0
    (by simp [exNotes, List.sorted_cons, noteLE]; norm_num)
    (by intro n hn; simp [exNotes] at hn; rcases hn with h | h | h <;> subst h <;> norm_num)
    (by norm_num)).2

/-- C3: when playback (re)starts at song position `p = s0.seekOffset`,
the cursor is set to the first timeline index whose `start_time` is not
strictly before `p − 20 ms` (every earlier index is strictly before it),
a voice whose start lies more than 20 ms in the past at schedule time is
silently dropped, and the run sounds exactly the non-rest events from the
resume cursor on — notes already past the resume position are never
re-sounded. -/
theorem resume_skips_past_notes
    (tempo : ℚ) (sorted : List NoteData) (t1 : ℚ) (k : ℕ) (s0 : PlayerState)
    (Hs : List.Sorted noteLE sorted)
    (Hk : ∀ n ∈ sorted, n.start_time ≤ schedWindow s0.seekOffset k) :
    (idealRun tempo sorted t1 s0 k).oscs
      = (((sorted.drop (findResumeIdx s0.seekOffset sorted)).enumFrom
            (findResumeIdx s0.seekOffset sorted)).filter
          fun pr => !isRest pr.2.duration).map
          (fun pr => mkVoice tempo pr.1 pr.2 (t1 - s0.seekOffset + pr.2.start_time) t1) ∧
    (∀ j, j < findResumeIdx s0.seekOffset sorted →
      ∃ hj : j < sorted.length,
        (sorted.get ⟨j, hj⟩).start_time < s0.seekOffset - 1/50) ∧
    (∀ (tempo2 now2 c2 : ℚ) (idx2 : ℕ) (note2 : NoteData) (oscs2 : List ToneVoice),
      c2 + note2.start_time < now2 - 1/50 →
      scheduleNote tempo2 now2 c2 idx2 note2 oscs2 = oscs2) := by
  obtain ⟨ihc, ihn, iho, ihp⟩ := idealRun_invariant tempo sorted t1 s0 Hs k
  refine ⟨?_, ?_, ?_⟩
  · rw [iho, takenAt_full sorted s0.seekOffset k Hk, idealVoices_eq_filter_map]
  · intro j hj
    have hle := findResumeIdx_le_length s0.seekOffset sorted
    have hjlen : j < sorted.length := by omega
    refine ⟨hjlen, ?_⟩
    rw [findResumeIdx_eq_takeWhile] at hj
    have hiff := sorted_takeWhile_length_iff
      (fun n => decide (n.start_time < s0.seekOffset - 1/50))
      (by
        intro a b hab hb
        simp only [decide_eq_true_eq] at hb ⊢
        exact lt_of_le_of_lt hab hb)
      sorted Hs j hjlen
    have := hiff.mp hj
    simpa using this
  · intro tempo2 now2 c2 idx2 note2 oscs2 h
    unfold scheduleNote
    by_cases ha : isRest note2.duration = true
    · rw [if_pos ha]
    · rw [if_neg ha, if_pos h]

/-- C3 witness: the spec example — pause at 0.75 s between C4 (at 0 s)
and D4 (at 1 s), then resume; the C4 note is skipped, the D4 note
sounds. -/
theorem resume_skips_past_notes_witness :
    (idealRun 120 ex2Notes 10 resumeState 0).oscs
      = (((ex2Notes.drop (findResumeIdx resumeState.seekOffset ex2Notes)).enumFrom
            (findResumeIdx resumeState.seekOffset ex2Notes)).filter
          fun pr => !isRest pr.2.duration).map
          (fun pr => mkVoice 120 pr.1 pr.2
            (10 - resumeState.seekOffset + pr.2.start_time) 10) :=
  (resume_skips_past_notes 120 ex2Notes 10 0 resumeState
    (by simp [ex2Notes, List.sorted_cons, noteLE])
    (by
      intro n hn
      have hseek : resumeState.seekOffset = 3/4 := by
        norm_num [resumeState, pause, play_spec, initState]
      simp [ex2Notes] at hn
      rcases hn with h | h <;> subst h <;>
        norm_num [schedWindow, LOOKAHEAD_SECS, hseek])).1

/-- C4 counterexample: when the reporting tick fires past the total
duration (position 2 ≥ duration 3/2, in a playing state reached by
`play`), the auto-transition to idle reports position 0, not the
duration: the final `setCurrentTime(0)` overwrites the
`setCurrentTime(min(elapsed, total))` issued earlier in the same
callback. -/
theorem completion_position_not_frozen :
    (rafTick (3/2) 2 (play 120 exNotes 0 initState)).currentTime = 0 ∧
    (rafTick (3/2) 2 (play 120 exNotes 0 initState)).currentTime ≠ 3/2 := by
  have hctx1 : (play 120 exNotes 0 initState).ctxExists = true := by
    rw [play_spec]
  have hcs : (play 120 exNotes 0 initState).contextStart = 0 := by
    rw [play_spec]
    norm_num [initState]
  have h : (rafTick (3/2) 2 (play 120 exNotes 0 initState)).currentTime = 0 := by
    unfold rafTick
    rw [if_pos hctx1, if_pos (by rw [hcs]; norm_num)]
  exact ⟨h, by rw [h]; norm_num⟩

/-- C4 amended: when the derived song position reaches or exceeds
`total_duration` while a context exists, the reporting tick
auto-transitions to idle — scheduling stops, all live voices are
terminated, both timers are cancelled — and the reported position is
reset to 0 (the idle state's position), not frozen at the duration. -/
theorem completion_auto_idle (total now : ℚ) (s : PlayerState)
    (hctx : s.ctxExists = true) (hend : total ≤ now - s.contextStart) :
    (rafTick total now s).playbackState = .idle ∧
    (rafTick total now s).currentTime = 0 ∧
    (rafTick total now s).seekOffset = 0 ∧
    (rafTick total now s).oscs = [] ∧
    (rafTick total now s).schedulerPending = false ∧
    (rafTick total now s).rafPending = false := by
  unfold rafTick
  rw [if_pos hctx, if_pos hend]
  exact ⟨rfl, rfl, rfl, rfl, rfl, rfl⟩

/-- C4 witness: the counterexample state, total duration 3/2, tick at
engine time 2. -/
theorem completion_auto_idle_witness :
    (rafTick (3/2) 2 (play 120 exNotes 0 initState)).playbackState = .idle ∧
    (rafTick (3/2) 2 (play 120 exNotes 0 initState)).currentTime = 0 ∧
    (rafTick (3/2) 2 (play 120 exNotes 0 initState)).seekOffset = 0 ∧
    (rafTick (3/2) 2 (play 120 exNotes 0 initState)).oscs = [] ∧
    (rafTick (3/2) 2 (play 120 exNotes 0 initState)).schedulerPending = false ∧
    (rafTick (3/2) 2 (play 120 exNotes 0 initState)).rafPending = false :=
  completion_auto_idle (3/2) 2 (play 120 exNotes 0 initState)
    (by rw [play_spec])
    (by rw [play_spec]; norm_num [initState])

/-- C5: after `stop()`, from any prior state, the reported position is 0,
the playback state is idle, the seek offset is 0, the live-voice set is
empty, and neither a scheduler tick nor a reporting tick is pending. -/
theorem stop_resets_state (s : PlayerState) :
    (stop s).currentTime = 0 ∧
    (stop s).playbackState = .idle ∧
    (stop s).seekOffset = 0 ∧
    (stop s).oscs = [] ∧
    (stop s).schedulerPending = false ∧
    (stop s).rafPending = false :=
  ⟨rfl, rfl, rfl, rfl, rfl, rfl⟩

/-- C6 counterexample: `pause()` is not idempotent while paused.  In the
reachable paused state `pausedAtOne` (position 1, clock anchor 0), a
second `pause()` at engine time 5 recomputes the seek offset from the
still-running engine clock and reports position 5 ≠ 1. -/
theorem pause_not_idempotent_when_paused :
    pausedAtOne.playbackState = .paused ∧
    (pause 5 pausedAtOne).currentTime ≠ pausedAtOne.currentTime := by
  have hctx : (play 120 [] 0 initState).ctxExists = true := by rw [play_spec]
  have hcs : (play 120 [] 0 initState).contextStart = 0 := by
    rw [play_spec]; norm_num [initState]
  have hp1 : pausedAtOne = { play 120 [] 0 initState with
      seekOffset := 1 - (play 120 [] 0 initState).contextStart,
      rafPending := false, schedulerPending := false, oscs := [],
      playbackState := .paused,
      currentTime := 1 - (play 120 [] 0 initState).contextStart } := by
    rw [pausedAtOne, pause, if_pos hctx]
  constructor
  · rw [hp1]
  · have hct : pausedAtOne.currentTime = 1 := by rw [hp1, hcs]; norm_num
    have hctx2 : pausedAtOne.ctxExists = true := by rw [hp1]; exact hctx
    have hcs2 : pausedAtOne.contextStart = 0 := by rw [hp1]; exact hcs
    have h5 : (pause 5 pausedAtOne).currentTime = 5 := by
      rw [pause, if_pos hctx2]
      show 5 - pausedAtOne.contextStart = 5
      rw [hcs2]; norm_num
    rw [h5, hct]; norm_num

/-- C6 amended: `stop()` while already idle (with the idle state's
invariant: position 0, seek offset 0, no voices, no pending ticks) leaves
the state unchanged.  `pause()` while paused keeps the paused state and
the empty voice set but re-derives the reported position from the engine
clock (`now − contextStart`); it leaves the state unchanged only when the
engine clock still reads the instant captured by the previous pause. -/
theorem stop_pause_idempotency_amended (s : PlayerState) (now : ℚ) :
    (s.playbackState = .idle → s.currentTime = 0 → s.seekOffset = 0 → s.oscs = [] →
      s.schedulerPending = false → s.rafPending = false → stop s = s) ∧
    (s.playbackState = .paused → s.ctxExists = true →
      ((pause now s).playbackState = .paused ∧ (pause now s).oscs = [] ∧
        (pause now s).currentTime = now - s.contextStart) ∧
      (s.oscs = [] → s.schedulerPending = false → s.rafPending = false →
        s.currentTime = s.seekOffset → now - s.contextStart = s.seekOffset →
        pause now s = s)) := by
  constructor
  · intro h1 h2 h3 h4 h5 h6
    cases s
    simp_all [stop]
  · intro hpause hctx
    constructor
    · rw [pause, if_pos hctx]
      exact ⟨rfl, rfl, rfl⟩
    · intro h1 h2 h3 h4 h5
      rw [pause, if_pos hctx]
      cases s
      simp_all

/-- C6 witness: `stop` on the initial idle state and a second `pause` at
the very engine instant of the first one both leave the state unchanged. -/
theorem stop_pause_idempotency_amended_witness :
    stop initState = initState ∧ pause 1 pausedAtOne = pausedAtOne := by
  have hctx : (play 120 [] 0 initState).ctxExists = true := by rw [play_spec]
  have hcs : (play 120 [] 0 initState).contextStart = 0 := by
    rw [play_spec]; norm_num [initState]
  have hp1 : pausedAtOne = { play 120 [] 0 initState with
      seekOffset := 1 - (play 120 [] 0 initState).contextStart,
      rafPending := false, schedulerPending := false, oscs := [],
      playbackState := .paused,
      currentTime := 1 - (play 120 [] 0 initState).contextStart } := by
    rw [pausedAtOne, pause, if_pos hctx]
  refine ⟨(stop_pause_idempotency_amended initState 1).1 rfl rfl rfl rfl rfl rfl, ?_⟩
  refine ((stop_pause_idempotency_amended pausedAtOne 1).2 ?_ ?_).2 ?_ ?_ ?_ ?_ ?_
  · rw [hp1]
  · rw [hp1]; exact hctx
  · rw [hp1]
  · rw [hp1]
  · rw [hp1]
  · rw [hp1]
  · rw [hp1]

/-- C7: a rest event (duration code ending in the rest suffix) never
produces a ToneVoice — `scheduleNote` returns the resource list
unchanged — while the scheduling loop advances the cursor through the
look-ahead window purely by `start_time`, identically for rests and
sounding events. -/
theorem rest_no_voice_cursor_advance :
    (∀ (tempo now c : ℚ) (idx : ℕ) (note : NoteData) (oscs : List ToneVoice),
      isRest note.duration = true → scheduleNote tempo now c idx note oscs = oscs) ∧
    (∀ (tempo now c u : ℚ) (idx : ℕ) (l : List NoteData) (oscs : List ToneVoice),
      (scheduleLoopAux tempo now c u idx l oscs).1
        = idx + (l.takeWhile fun n => decide (n.start_time ≤ u)).length) := by
  constructor
  · intro tempo now c idx note oscs h
    unfold scheduleNote
    rw [if_pos h]
  · intro tempo now c u idx l oscs
    rw [scheduleLoopAux_spec]

/-- C7 witness: a quarter rest creates no voice, and the loop over the
spec example (note, rest, note) advances the cursor past all three. -/
theorem rest_no_voice_cursor_advance_witness :
    scheduleNote 120 0 0 1 ⟨"C", 4, "qr", 1/2⟩ [] = [] ∧
    (scheduleLoopAux 120 0 0 2 0 exNotes []).1
      = 0 + (exNotes.takeWhile fun n => decide (n.start_time ≤ 2)).length :=
  ⟨rest_no_voice_cursor_advance.1 120 0 0 1 ⟨"C", 4, "qr", 1/2⟩ [] isRest_qr,
   rest_no_voice_cursor_advance.2 120 0 0 2 0 exNotes []⟩

/-- C8: for every pitch letter of the table and every integer octave,
`noteToFreq` returns `440 · 2^((midi − 69)/12)` with
`midi = (octave + 1) · 12 + offset`, where the offset is the standard
semitone distance of the pitch from C (C = 0, …, B = 11); sharp and flat
spellings of the same pitch class give the identical frequency, and
A4 = 440 Hz. -/
theorem noteToFreq_equal_tempered_enharmonic :
    ∀ o : ℤ,
      (noteToFreq "C" o = freqOfMidi ((o + 1) * 12 + 0) ∧
       noteToFreq "C#" o = freqOfMidi ((o + 1) * 12 + 1) ∧
       noteToFreq "Db" o = freqOfMidi ((o + 1) * 12 + 1) ∧
       noteToFreq "D" o = freqOfMidi ((o + 1) * 12 + 2) ∧
       noteToFreq "D#" o = freqOfMidi ((o + 1) * 12 + 3) ∧
       noteToFreq "Eb" o = freqOfMidi ((o + 1) * 12 + 3) ∧
       noteToFreq "E" o = freqOfMidi ((o + 1) * 12 + 4) ∧
       noteToFreq "F" o = freqOfMidi ((o + 1) * 12 + 5) ∧
       noteToFreq "F#" o = freqOfMidi ((o + 1) * 12 + 6) ∧
       noteToFreq "Gb" o = freqOfMidi ((o + 1) * 12 + 6) ∧
       noteToFreq "G" o = freqOfMidi ((o + 1) * 12 + 7) ∧
       noteToFreq "G#" o = freqOfMidi ((o + 1) * 12 + 8) ∧
       noteToFreq "Ab" o = freqOfMidi ((o + 1) * 12 + 8) ∧
       noteToFreq "A" o = freqOfMidi ((o + 1) * 12 + 9) ∧
       noteToFreq "A#" o = freqOfMidi ((o + 1) * 12 + 10) ∧
       noteToFreq "Bb" o = freqOfMidi ((o + 1) * 12 + 10) ∧
       noteToFreq "B" o = freqOfMidi ((o + 1) * 12 + 11)) ∧
      (noteToFreq "C#" o = noteToFreq "Db" o ∧
       noteToFreq "D#" o = noteToFreq "Eb" o ∧
       noteToFreq "F#" o = noteToFreq "Gb" o ∧
       noteToFreq "G#" o = noteToFreq "Ab" o ∧
       noteToFreq "A#" o = noteToFreq "Bb" o) ∧
      noteToFreq "A" 4 = 440 := by
  intro o
  refine ⟨⟨rfl, rfl, rfl, rfl, rfl, rfl, rfl, rfl, rfl, rfl, rfl, rfl, rfl, rfl,
    rfl, rfl, rfl⟩, ⟨rfl, rfl, rfl, rfl, rfl⟩, ?_⟩
  have hmidi : ((4 + 1) * 12 + (NOTE_SEMITONES "A").getD 0 : ℤ) = 69 := by decide
  unfold noteToFreq
  rw [hmidi]
  norm_num

/-- C9: `duration_to_seconds` is a total function.  After the source's
`replace('r', '')` stripping, each recognized code maps to its fixed beat
count (whole = 4, dotted-half = 3, half = 2, dotted-quarter = 1.5,
quarter = 1, dotted-eighth = 0.75, eighth = 0.5, sixteenth = 0.25) times
`60 / tempo`, with and without the rest suffix; any unrecognized code
falls back to the one-beat default `60 / tempo` instead of failing. -/
theorem durationToSecs_total_table_fallback :
    ∀ tempo : ℚ,
      (durationToSecs "w" tempo = 4 * (60 / tempo) ∧
       durationToSecs "hd" tempo = 3 * (60 / tempo) ∧
       durationToSecs "h" tempo = 2 * (60 / tempo) ∧
       durationToSecs "qd" tempo = 3/2 * (60 / tempo) ∧
       durationToSecs "q" tempo = 1 * (60 / tempo) ∧
       durationToSecs "8d" tempo = 3/4 * (60 / tempo) ∧
       durationToSecs "8" tempo = 1/2 * (60 / tempo) ∧
       durationToSecs "16" tempo = 1/4 * (60 / tempo) ∧
       durationToSecs "wr" tempo = 4 * (60 / tempo) ∧
       durationToSecs "hdr" tempo = 3 * (60 / tempo) ∧
       durationToSecs "hr" tempo = 2 * (60 / tempo) ∧
       durationToSecs "qdr" tempo = 3/2 * (60 / tempo) ∧
       durationToSecs "qr" tempo = 1 * (60 / tempo) ∧
       durationToSecs "8dr" tempo = 3/4 * (60 / tempo) ∧
       durationToSecs "8r" tempo = 1/2 * (60 / tempo) ∧
       durationToSecs "16r" tempo = 1/4 * (60 / tempo)) ∧
      ∀ d : String, DURATION_BEATS (stripRest d) = none →
        durationToSecs d tempo = 60 / tempo := by
  intro tempo
  exact ⟨⟨durationToSecs_lookup "w" 4 rfl tempo,
    durationToSecs_lookup "hd" 3 rfl tempo,
    durationToSecs_lookup "h" 2 rfl tempo,
    durationToSecs_lookup "qd" (3/2) rfl tempo,
    durationToSecs_lookup "q" 1 rfl tempo,
    durationToSecs_lookup "8d" (3/4) rfl tempo,
    durationToSecs_lookup "8" (1/2) rfl tempo,
    durationToSecs_lookup "16" (1/4) rfl tempo,
    durationToSecs_lookup "wr" 4 rfl tempo,
    durationToSecs_lookup "hdr" 3 rfl tempo,
    durationToSecs_lookup "hr" 2 rfl tempo,
    durationToSecs_lookup "qdr" (3/2) rfl tempo,
    durationToSecs_lookup "qr" 1 rfl tempo,
    durationToSecs_lookup "8dr" (3/4) rfl tempo,
    durationToSecs_lookup "8r" (1/2) rfl tempo,
    durationToSecs_lookup "16r" (1/4) rfl tempo⟩,
   fun d h => durationToSecs_default d h tempo⟩

/-- C9 witness: the quarter note at 120 BPM and an unrecognized code. -/
theorem durationToSecs_total_table_fallback_witness :
    durationToSecs "w" 120 = 4 * (60 / 120) ∧ durationToSecs "zz" 120 = 60 / 120 :=
  ⟨(durationToSecs_total_table_fallback 120).1.1,
   (durationToSecs_total_table_fallback 120).2 "zz" rfl⟩

/-- C10: calling `play()` while already playing does not continue from
the current position: the clock is re-anchored at the stored seek offset
(`contextStart = now − seekOffset`), the cursor is recomputed from the
seek offset, the voice list is rebuilt from scratch (only the fresh first
batch), and the result is entirely independent of the prior voices,
cursor and pending timers — it depends only on the stored seek offset
(and on the reported position, which `play` leaves untouched). -/
theorem play_while_playing_restarts_from_seek
    (tempo : ℚ) (sorted : List NoteData) (now : ℚ) (s : PlayerState)
    (hplaying : s.playbackState = .playing) :
    (play tempo sorted now s).contextStart = now - s.seekOffset ∧
    (play tempo sorted now s).playbackState = .playing ∧
    (play tempo sorted now s).rafPending = true ∧
    (play tempo sorted now s).nextNoteIndex = findResumeIdx s.seekOffset sorted
      + ((sorted.drop (findResumeIdx s.seekOffset sorted)).takeWhile
          fun n => decide (n.start_time ≤ s.seekOffset + LOOKAHEAD_SECS)).length ∧
    (play tempo sorted now s).oscs = scheduleSlice tempo now (now - s.seekOffset)
      (findResumeIdx s.seekOffset sorted)
      ((sorted.drop (findResumeIdx s.seekOffset sorted)).takeWhile
        fun n => decide (n.start_time ≤ s.seekOffset + LOOKAHEAD_SECS)) ∧
    (∀ s2 : PlayerState, s2.seekOffset = s.seekOffset → s2.currentTime = s.currentTime →
      play tempo sorted now s2 = play tempo sorted now s) := by
  refine ⟨?_, ?_, ?_, ?_, ?_, ?_⟩
  · rw [play_spec]
  · rw [play_spec]
  · rw [play_spec]
  · rw [play_spec]
  · rw [play_spec]
  · intro s2 h1 h2
    rw [play_spec, play_spec]
    simp only [h1, h2]

/-- C10 witness: a second `play` at engine time 5 on the playing state
reached by a first `play` at time 0 re-anchors the clock at the stored
seek offset. -/
theorem play_while_playing_restarts_from_seek_witness :
    (play 120 ex2Notes 5 playingState).contextStart = 5 - playingState.seekOffset :=
  (play_while_playing_restarts_from_seek 120 ex2Notes 5 playingState
    (by rw [playingState, play_spec])).1

